import Mathlib

/-!
Verification of the metric-aggregation, example-selection, plotting and
configuration glue of the spirals training driver (`spirals.py`) and the
token-similarity script (`scripts/test_spacy.py`).

The Python code is shallowly embedded: tensors of per-timestep values become
functions `ℕ → ℚ`, Python dicts become association lists or update functions,
and floating point arithmetic is idealised as exact rational (for `np.std`,
real) arithmetic.
-/

namespace Spirals

/-! ### `default_args` (spirals.py lines 28-37)

`args` carries the fields that `default_args` reads or writes: the modality
list, the corruption-options dict, and the optional reconstruction-loss
multiplier dict.  `model.dims` is supplied by the external model object, so it
is a parameter `dims : String → ℚ`. -/

structure Args where
  modalities : List String
  corrupt : List (String × ℚ)
  rec_mults : Option (List (String × ℚ))
deriving Repr, DecidableEq

/-- Python `d.get(k, default)` on a dict modelled as an association list. -/
def dictGet (d : List (String × ℚ)) (k : String) (dflt : ℚ) : ℚ :=
  (List.lookup k d).getD dflt

/-- The corruption multiplier `1 / (1 - args.corrupt.get('uniform', 0.0))`
computed by `default_args`. -/
def corrupt_mult (corrupt : List (String × ℚ)) : ℚ :=
  1 / (1 - dictGet corrupt "uniform" 0)

/-- Model of `SpiralsTrainer.default_args`: fill `rec_mults` with
`((1.0 / dims[m]) / len(args.modalities)) * corrupt_mult` for each modality
when it is `None`; otherwise return `args` unchanged. -/
def default_args (dims : String → ℚ) (args : Args) : Args :=
  match args.rec_mults with
  | none =>
      { args with
        rec_mults := some (args.modalities.map (fun m =>
          (m, (1 / dims m) / (args.modalities.length : ℚ)
              * corrupt_mult args.corrupt))) }
  | some _ => args

/-! ### `load_data` (spirals.py lines 39-55)

`SpiralsDataset` and its in-place `normalize_` method live in the external
`datasets.spirals` module, so a dataset is modelled as its construction /
normalization history: `base subdir` is a freshly loaded dataset and
`normalized mods ref prev` is the result of `prev.normalize_(modalities=mods,
ref_data=ref)` (with `ref = prev`'s old state when no reference is passed,
since `normalize_` then uses the dataset itself as reference). -/

inductive DState where
  | base (subdir : String) : DState
  | normalized (mods : List String) (ref : DState) (prev : DState) : DState
deriving Repr, DecidableEq

/-- Model of `data.normalize_(modalities=mods, ref_data=ref)` as a state transformer. -/
def normalizeDS (d : DState) (mods : List String) (ref : DState) : DState :=
  DState.normalized mods ref d

/-- Model of `SpiralsTrainer.load_data`: load train and test datasets, then, when
`args.normalize` is non-empty, first normalize the test data against the
training data and then normalize the training data in place.  Returns
`(train_data, test_data)`. -/
def load_data (train_subdir test_subdir : String)
    (normalize : List String) : DState × DState :=
  let train_data := DState.base train_subdir
  let test_data := DState.base test_subdir
  if 0 < normalize.length then
    let test_data := normalizeDS test_data normalize train_data
    let train_data := normalizeDS train_data normalize train_data
    (train_data, test_data)
  else
    (train_data, test_data)

/-! ### `plot_spiral` (spirals.py lines 143-151)

`plot_spiral` receives `pred = (x-means, y-means)` and `rng = (x-stds,
y-stds)` as pairs of per-timestep sequences and builds an
`EllipseCollection(1.96*rng[0], 1.96*rng[1], (0,), ...,
offsets=np.column_stack(pred))`.  The collection is modelled as the list of
ellipses it draws: the `i`-th ellipse takes the `i`-th width, `i`-th height
and `i`-th offset row `(pred[0][i], pred[1][i])`. -/

structure Ellipse where
  width : ℚ
  height : ℚ
  cx : ℚ
  cy : ℚ
deriving Repr, DecidableEq

/-- The ellipses drawn by `plot_spiral`'s `EllipseCollection` call. -/
def plot_spiral_ellipses (pred rng : List ℚ × List ℚ) : List Ellipse :=
  let widths := rng.1.map (fun v => (196 / 100 : ℚ) * v)
  let heights := rng.2.map (fun v => (196 / 100 : ℚ) * v)
  let offsets := pred.1.zip pred.2
  (widths.zip (heights.zip offsets)).map
    (fun whc => ⟨whc.1, whc.2.1, whc.2.2.1, whc.2.2.2⟩)

/-! ### `visualize` selection (spirals.py lines 100-102)

`visualize` selects `sel_idx = np.concatenate((np.argsort(metric)[:4],
np.argsort(metric)[-4:][::-1]))` and plots sequence `sel_idx[i]` in the
`i`-th panel.  `np.argsort` returns the indices that sort the metric
ascending; ties are resolved here stably (by index), one of the orders
`np.argsort` may produce. -/

/-- Index comparison realising `np.argsort`: order indices by metric value,
ties broken by index. -/
def argRel (l : List ℚ) (i j : ℕ) : Prop :=
  l.getD i 0 < l.getD j 0 ∨ (l.getD i 0 = l.getD j 0 ∧ i ≤ j)

instance argRel.decidable (l : List ℚ) : DecidableRel (argRel l) := fun i j =>
  inferInstanceAs
    (Decidable (l.getD i 0 < l.getD j 0 ∨ (l.getD i 0 = l.getD j 0 ∧ i ≤ j)))

/-- Model of `np.argsort(l)`: the indices `0, ..., len(l)-1` sorted by metric value. -/
def argsort (l : List ℚ) : List ℕ :=
  List.insertionSort (argRel l) (List.range l.length)

/-- The metric values in ascending order (`sorted(l)`). -/
def sortQ (l : List ℚ) : List ℚ :=
  List.insertionSort (fun a b : ℚ => a ≤ b) l

/-- Model of `np.concatenate((np.argsort(metric)[:4], np.argsort(metric)[-4:][::-1]))`,
the indices of the sequences `visualize` plots, in plotting order. -/
def sel_idx (metric : List ℚ) : List ℕ :=
  (argsort metric).take 4 ++
    ((argsort metric).drop ((argsort metric).length - 4)).reverse

/-! ### `summarize_metrics` (spirals.py lines 77-92)

The metrics dict maps keys to either a per-sequence list (`mse`) or an
accumulated scalar (`kld_loss`, `rec_loss`).  The summary dict built by the
loop is modelled as a partial map `String → Option ℝ`; each loop iteration
performs the Python dict assignments.  `np.mean` and `np.std` (with its
default `ddof = 0`) are idealised over the reals. -/

inductive MetricVal where
  | list (l : List ℝ) : MetricVal
  | scalar (x : ℝ) : MetricVal

/-- Model of `np.mean`: the arithmetic mean of a list. -/
noncomputable def npMean (l : List ℝ) : ℝ := l.sum / l.length

/-- Model of `np.std`: the population standard deviation (`ddof = 0`), i.e. the square
root of the mean squared deviation from the mean. -/
noncomputable def npStd (l : List ℝ) : ℝ :=
  Real.sqrt ((l.map (fun x => (x - npMean l) ^ 2)).sum / l.length)

/-- Python dict assignment `d[k] = v` on a partial map. -/
def dictSet {β : Type} (d : String → Option β) (k : String) (v : β) :
    String → Option β :=
  fun s => if s = k then some v else d s

/-- One iteration of the loop of `summarize_metrics`: a list-valued metric
stores its mean at `key` and its standard deviation at `key + '_std'`; any
other value is stored divided by `n_timesteps`. -/
noncomputable def summarizeStep (n_timesteps : ℝ)
    (summary : String → Option ℝ) (kv : String × MetricVal) :
    String → Option ℝ :=
  match kv.2 with
  | MetricVal.list l =>
      dictSet (dictSet summary kv.1 (npMean l)) (kv.1 ++ "_std") (npStd l)
  | MetricVal.scalar x => dictSet summary kv.1 (x / n_timesteps)

/-- Model of `SpiralsTrainer.summarize_metrics`: fold the loop body over the items of
the metrics dict, starting from the empty summary dict. -/
noncomputable def summarize_metrics (metrics : List (String × MetricVal))
    (n_timesteps : ℝ) : String → Option ℝ :=
  metrics.foldl (summarizeStep n_timesteps) (fun _ => none)

/-! ### `compute_metrics` (spirals.py lines 57-75)

A batch holds `T` time-steps of `B` sequences; the reconstruction of modality
`m` is a pair (mean tensor, std tensor) indexed `recon[m][0]` / `recon[m][1]`
in the code, and the summed squared-error tensor has `D` feature positions
per time-step and sequence (the dims `>= 2` summed by
`mse.sum(dim=range(2, mse.dim()))`).  `mask` is the squeezed time/sequence
validity mask and `lengths` the per-sequence lengths. -/

structure Batch where
  T : ℕ
  B : ℕ
  D : ℕ
  mods : List String
  recon : String → (ℕ → ℕ → ℕ → ℚ) × (ℕ → ℕ → ℕ → ℚ)
  targets : String → ℕ → ℕ → ℕ → ℚ
  mask : ℕ → ℕ → Bool
  lengths : ℕ → ℚ

/-- Value of `sum([(recon[m][0]-targets[m]).pow(2) for m in recon.keys()])` at entry
`(t, b, d)`. -/
def sq_err (bt : Batch) (t b d : ℕ) : ℚ :=
  (bt.mods.map (fun m => ((bt.recon m).1 t b d - bt.targets m t b d) ^ 2)).sum

/-- Value of `mse.sum(dim=range(2, mse.dim()))` at `(t, b)`. -/
def mse_tb (bt : Batch) (t b : ℕ) : ℚ :=
  ((List.range bt.D).map (fun d => sq_err bt t b d)).sum

/-- The masked assignment `val[1 - mask.squeeze(-1)] = 0.0` of `time_avg`:
entries at time-steps outside the mask become `0`. -/
def masked_mse (bt : Batch) (t b : ℕ) : ℚ :=
  if bt.mask t b then mse_tb bt t b else 0

/-- Model of `time_avg`: `val.sum(dim=0) / lengths` at sequence `b`. -/
def time_avg_mse (bt : Batch) (b : ℕ) : ℚ :=
  ((List.range bt.T).map (fun t => masked_mse bt t b)).sum / bt.lengths b

/-- Model of `metrics['mse'] = time_avg(mse)[order].tolist()`. -/
def compute_metrics_mse (bt : Batch) (order : List ℕ) : List ℚ :=
  order.map (fun b => time_avg_mse bt b)

/-- The per-sequence value C4 describes, written as the spec words it: the
squared reconstruction error summed over all modalities and feature
dimensions at each time-step, zeroed outside the mask, summed over time and
divided by the sequence's length. -/
def spec_seq_mse (bt : Batch) (b : ℕ) : ℚ :=
  ((List.range bt.T).map (fun t =>
    if bt.mask t b then
      (bt.mods.map (fun m =>
        ((List.range bt.D).map (fun d =>
          ((bt.recon m).1 t b d - bt.targets m t b d) ^ 2)).sum)).sum
    else 0)).sum / bt.lengths b

end Spirals

namespace TestSpacy

/-! ### `scripts/test_spacy.py`

The spacy `nlp` pipeline is external, so the parsed document is an abstract
token list and `similarity` an abstract function.  The nested loop prints the
line `token1.text token2.text token1.similarity(token2)` for each pair. -/

structure Token where
  text : String
deriving Repr, DecidableEq

/-- The sequence of lines printed by the nested loop of `test_spacy.py`,
each line recorded as `(token1.text, token2.text, similarity)`. -/
def printedLines (tokens : List Token) (sim : Token → Token → ℚ) :
    List (String × String × ℚ) :=
  tokens.flatMap (fun t1 => tokens.map (fun t2 => (t1.text, t2.text, sim t1 t2)))

/-- A `flatMap` whose blocks all have length `n` has `l.length * n` elements. -/
theorem flatMap_const_length {α β : Type} (l : List α) (f : α → List β) (n : ℕ)
    (hn : ∀ a, (f a).length = n) : (l.flatMap f).length = l.length * n := by
  induction l with
  | nil => simp
  | cons a l ih =>
      simp [List.flatMap_cons, ih, hn a, Nat.succ_mul, Nat.add_comm]

/-- Indexing into a `flatMap` with constant block length `n`: position
`i * n + j` lands at offset `j` of block `i`. -/
theorem flatMap_const_getD {α β : Type} (l : List α) (f : α → List β) (n : ℕ)
    (hn : ∀ a, (f a).length = n) (i j : ℕ) (hi : i < l.length) (hj : j < n)
    (d : β) (d' : α) :
    (l.flatMap f).getD (i * n + j) d = (f (l.getD i d')).getD j d := by
  induction l generalizing i with
  | nil => exact absurd hi (Nat.not_lt_zero i)
  | cons a l ih =>
      rw [List.flatMap_cons]
      cases i with
      | zero =>
          have hlt : 0 * n + j < (f a).length := by
            simpa [hn a] using hj
          simp only [Nat.zero_mul, Nat.zero_add] at hlt ⊢
          rw [List.getD_eq_getElem?_getD, List.getElem?_append_left hlt,
            ← List.getD_eq_getElem?_getD, List.getD_cons_zero]
      | succ i =>
          have hge : (f a).length ≤ (i + 1) * n + j := by
            rw [hn a, Nat.succ_mul]
            omega
          rw [List.getD_eq_getElem?_getD, List.getElem?_append_right hge,
            ← List.getD_eq_getElem?_getD, List.getD_cons_succ]
          have : (i + 1) * n + j - (f a).length = i * n + j := by
            rw [hn a, Nat.succ_mul]
            omega
          rw [this]
          exact ih i (Nat.lt_of_succ_lt_succ hi)

end TestSpacy

namespace Spirals

/-! ## Theorems -/

/-- C8: when `args.rec_mults` is `None`, `default_args` fills it with, for
every modality `m`, `(1/dims[m])` divided by the number of modalities times
`1/(1 - u)` where `u` is `corrupt['uniform']` if present and `0.0` otherwise;
when `args.rec_mults` is not `None`, `args` is returned with `rec_mults`
unchanged. -/
theorem default_args_spec (dims : String → ℚ) (args : Args) :
    (args.rec_mults = none →
      (default_args dims args).rec_mults =
        some (args.modalities.map (fun m =>
          (m, (1 / dims m) / (args.modalities.length : ℚ)
              * (1 / (1 - (List.lookup "uniform" args.corrupt).getD 0)))))) ∧
    (args.rec_mults ≠ none → default_args dims args = args) := by
  constructor
  · intro h
    simp [default_args, h, corrupt_mult, dictGet]
  · intro h
    match hr : args.rec_mults with
    | none => exact absurd hr h
    | some v => simp [default_args, hr]

/-- Witness for C8 at a concrete argument record. -/
theorem default_args_spec_witness :
    (Args.mk ["spiral-x", "spiral-y"] [("uniform", 1/2)] none).rec_mults
        = none ∧
    (default_args (fun _ => 1)
        (Args.mk ["spiral-x", "spiral-y"] [("uniform", 1/2)] none)).rec_mults =
      some ((["spiral-x", "spiral-y"] : List String).map (fun m =>
        (m, (1 / (fun _ : String => (1:ℚ)) m) / ((2:ℕ) : ℚ)
            * (1 / (1 - (List.lookup "uniform"
                [("uniform", (1:ℚ)/2)]).getD 0))))) :=
  ⟨rfl, (default_args_spec (fun _ => 1)
      (Args.mk ["spiral-x", "spiral-y"] [("uniform", 1/2)] none)).1 rfl⟩

/-- C9: the denominator `1 - corrupt.get('uniform', 0.0)` used by
`default_args` is nonzero whenever the uniform corruption fraction is strictly
less than 1, so `corrupt_mult` is a genuine reciprocal and the default
`rec_mults` computation never divides by zero. -/
theorem corrupt_mult_no_div_by_zero (corrupt : List (String × ℚ))
    (h : dictGet corrupt "uniform" 0 < 1) :
    (1 - dictGet corrupt "uniform" 0) ≠ 0 ∧
    corrupt_mult corrupt * (1 - dictGet corrupt "uniform" 0) = 1 := by
  have hne : (1 - dictGet corrupt "uniform" 0) ≠ 0 := by
    intro h0
    have : dictGet corrupt "uniform" 0 = 1 := by linarith [sub_eq_zero.mp h0]
    exact absurd this (ne_of_lt h)
  refine ⟨hne, ?_⟩
  rw [corrupt_mult, one_div, inv_mul_cancel₀ hne]

/-- Witness for C9 with a 50% uniform corruption fraction. -/
theorem corrupt_mult_no_div_by_zero_witness :
    dictGet [("uniform", (1:ℚ)/2)] "uniform" 0 < 1 ∧
    ((1 - dictGet [("uniform", (1:ℚ)/2)] "uniform" 0) ≠ 0 ∧
     corrupt_mult [("uniform", (1:ℚ)/2)]
        * (1 - dictGet [("uniform", (1:ℚ)/2)] "uniform" 0) = 1) :=
  ⟨by norm_num [dictGet],
   corrupt_mult_no_div_by_zero [("uniform", (1:ℚ)/2)]
     (by norm_num [dictGet])⟩

instance argRel.total (l : List ℚ) : IsTotal ℕ (argRel l) where
  total i j := by
    rcases lt_trichotomy (l.getD i 0) (l.getD j 0) with h | h | h
    · exact Or.inl (Or.inl h)
    · rcases Nat.le_total i j with hij | hij
      · exact Or.inl (Or.inr ⟨h, hij⟩)
      · exact Or.inr (Or.inr ⟨h.symm, hij⟩)
    · exact Or.inr (Or.inl h)

instance argRel.trans (l : List ℚ) : IsTrans ℕ (argRel l) where
  trans i j k hij hjk := by
    rcases hij with h1 | ⟨e1, le1⟩
    · rcases hjk with h2 | ⟨e2, _⟩
      · exact Or.inl (h1.trans h2)
      · exact Or.inl (e2 ▸ h1)
    · rcases hjk with h2 | ⟨e2, le2⟩
      · exact Or.inl (e1 ▸ h2)
      · exact Or.inr ⟨e1.trans e2, le1.trans le2⟩

instance argRel.antisymm (l : List ℚ) : IsAntisymm ℕ (argRel l) where
  antisymm i j hij hji := by
    rcases hij with h1 | ⟨e1, le1⟩
    · rcases hji with h2 | ⟨e2, _⟩
      · exact absurd (h1.trans h2) (lt_irrefl _)
      · exact absurd (e2 ▸ h1) (lt_irrefl _)
    · rcases hji with h2 | ⟨e2, le2⟩
      · exact absurd (e1 ▸ h2) (lt_irrefl _)
      · exact Nat.le_antisymm le1 le2

/-- Reading every position of a list in index order gives the list back. -/
theorem map_getD_range (l : List ℚ) :
    (List.range l.length).map (fun i => l.getD i 0) = l := by
  apply List.ext_getElem (by simp)
  intro i h1 h2
  rw [List.getElem_map, List.getElem_range]
  exact List.getD_eq_getElem _ _ h2

/-- The function `argsort` returns one index per metric entry. -/
theorem length_argsort (l : List ℚ) : (argsort l).length = l.length := by
  rw [argsort, List.length_insertionSort, List.length_range]

/-- The list `sortQ l` is ascending. -/
theorem sortQ_sorted (l : List ℚ) :
    (sortQ l).Sorted (fun a b : ℚ => a ≤ b) :=
  List.sorted_insertionSort _ l

/-- The list `sortQ l` is a permutation of `l`. -/
theorem sortQ_perm (l : List ℚ) : List.Perm (sortQ l) l :=
  List.perm_insertionSort _ l

/-- Reading the metric at the indices of `argsort l`, in order, yields the
metric values sorted ascending. -/
theorem map_getD_argsort (l : List ℚ) :
    (argsort l).map (fun i => l.getD i 0) = sortQ l := by
  have hperm : List.Perm ((argsort l).map (fun i => l.getD i 0)) (sortQ l) := by
    have h1 : List.Perm (argsort l) (List.range l.length) :=
      List.perm_insertionSort _ _
    have h2 := h1.map (fun i => l.getD i 0)
    rw [map_getD_range] at h2
    exact h2.trans (sortQ_perm l).symm
  have hsorted : ((argsort l).map (fun i => l.getD i 0)).Sorted
      (fun a b : ℚ => a ≤ b) := by
    have hs : (argsort l).Sorted (argRel l) :=
      List.sorted_insertionSort _ _
    refine List.Pairwise.map _ ?_ hs
    intro i j hij
    rcases hij with h | ⟨h, _⟩
    · exact le_of_lt h
    · exact le_of_eq h
  exact List.eq_of_perm_of_sorted hperm hsorted (sortQ_sorted l)

/-- Appending the suffix `"_std"` always changes a string. -/
theorem self_ne_append_std (s : String) : s ≠ s ++ "_std" := by
  intro h
  have h2 := congrArg String.length h
  have h4 : ("_std" : String).length = 4 := rfl
  rw [String.length_append, h4] at h2
  omega

/-- Dict entries that assign neither to `s` nor (through their `_std`
companion) to `s` leave position `s` of the summary unchanged. -/
theorem summarize_foldl_preserve (n : ℝ) (l2 : List (String × MetricVal))
    (acc : String → Option ℝ) (s : String)
    (h : ∀ p ∈ l2, p.1 ≠ s ∧ p.1 ++ "_std" ≠ s) :
    (l2.foldl (summarizeStep n) acc) s = acc s := by
  induction l2 generalizing acc with
  | nil => rfl
  | cons p l2 ih =>
      obtain ⟨k, v⟩ := p
      rw [List.foldl_cons,
        ih _ (fun q hq => h q (List.mem_cons_of_mem _ hq))]
      obtain ⟨h1, h2⟩ := h (k, v) (List.mem_cons_self _ _)
      cases v with
      | list lv =>
          simp only [summarizeStep, dictSet]
          rw [if_neg (Ne.symm h2), if_neg (Ne.symm h1)]
      | scalar x =>
          simp only [summarizeStep, dictSet]
          rw [if_neg (Ne.symm h1)]

/-- C1: for every list-valued metric key, `summarize_metrics` stores the
arithmetic mean of the per-sequence values under the key and their population
standard deviation under the key suffixed `'_std'` (provided no later dict
entry writes over those two slots, which Python's unique dict keys
guarantee for the metrics produced by `compute_metrics`). -/
theorem summarize_metrics_list_mean_std (n : ℝ)
    (l1 l2 : List (String × MetricVal)) (key : String) (val : List ℝ)
    (hcol : ∀ p ∈ l2, (p.1 ≠ key ∧ p.1 ++ "_std" ≠ key) ∧
      (p.1 ≠ key ++ "_std" ∧ p.1 ++ "_std" ≠ key ++ "_std")) :
    summarize_metrics (l1 ++ (key, MetricVal.list val) :: l2) n key =
      some (npMean val) ∧
    summarize_metrics (l1 ++ (key, MetricVal.list val) :: l2) n
        (key ++ "_std") =
      some (npStd val) := by
  unfold summarize_metrics
  rw [List.foldl_append, List.foldl_cons]
  constructor
  · rw [summarize_foldl_preserve n l2 _ key (fun p hp => (hcol p hp).1)]
    simp only [summarizeStep, dictSet]
    rw [if_neg (self_ne_append_std key)]
    simp
  · rw [summarize_foldl_preserve n l2 _ (key ++ "_std")
      (fun p hp => (hcol p hp).2)]
    simp [summarizeStep, dictSet]

/-- Witness for C1 on a metrics dict holding a scalar loss and the
per-sequence `mse` list `[1, 3]`. -/
theorem summarize_metrics_list_mean_std_witness :
    summarize_metrics
        ([("kld_loss", MetricVal.scalar 4)] ++
          ("mse", MetricVal.list [1, 3]) :: []) 2 "mse" =
      some (npMean [1, 3]) ∧
    summarize_metrics
        ([("kld_loss", MetricVal.scalar 4)] ++
          ("mse", MetricVal.list [1, 3]) :: []) 2 ("mse" ++ "_std") =
      some (npStd [1, 3]) :=
  summarize_metrics_list_mean_std 2 [("kld_loss", MetricVal.scalar 4)] []
    "mse" [1, 3] (fun p hp => absurd hp (List.not_mem_nil p))

/-- C3: for every metric key whose value is not a list, `summarize_metrics`
stores the value divided by `n_timesteps`, i.e. the metric averaged over all
timesteps of the dataset (provided no later dict entry writes over that slot,
which Python's unique dict keys guarantee for the metrics produced by
`compute_metrics`). -/
theorem summarize_metrics_scalar_avg (n : ℝ)
    (l1 l2 : List (String × MetricVal)) (key : String) (x : ℝ)
    (hcol : ∀ p ∈ l2, p.1 ≠ key ∧ p.1 ++ "_std" ≠ key) :
    summarize_metrics (l1 ++ (key, MetricVal.scalar x) :: l2) n key =
      some (x / n) := by
  unfold summarize_metrics
  rw [List.foldl_append, List.foldl_cons,
    summarize_foldl_preserve n l2 _ key hcol]
  simp [summarizeStep, dictSet]

/-- Witness for C3: the scalar `kld_loss` accumulated over a 3-timestep
dataset is stored averaged, with a later list-valued entry present. -/
theorem summarize_metrics_scalar_avg_witness :
    summarize_metrics
        ([] ++ ("kld_loss", MetricVal.scalar 6) ::
          [("mse", MetricVal.list [1, 2])]) 3 "kld_loss" =
      some (6 / 3) :=
  summarize_metrics_scalar_avg 3 [] [("mse", MetricVal.list [1, 2])]
    "kld_loss" 6
    (by
      intro p hp
      rw [List.mem_singleton] at hp
      subst hp
      exact ⟨by decide, by decide⟩)

/-- Pointwise sums of rationals distribute over a mapped list. -/
theorem list_sum_map_add {α : Type} (l : List α) (f g : α → ℚ) :
    (l.map (fun x => f x + g x)).sum = (l.map f).sum + (l.map g).sum := by
  induction l with
  | nil => simp
  | cons a l ih =>
      simp only [List.map_cons, List.sum_cons, ih]
      ring

/-- Exchanging two finite (list-indexed) sums of rationals. -/
theorem list_sum_swap {α β : Type} (la : List α) (lb : List β)
    (f : α → β → ℚ) :
    (la.map (fun a => (lb.map (fun b => f a b)).sum)).sum =
    (lb.map (fun b => (la.map (fun a => f a b)).sum)).sum := by
  induction la with
  | nil => simp
  | cons a la ih =>
      simp only [List.map_cons, List.sum_cons, ih, list_sum_map_add]

/-- C4: the per-sequence `'mse'` list reported by `compute_metrics` is, for
each sequence of the batch, the squared reconstruction error summed over all
modalities and feature dimensions at each time-step, zeroed at time-steps
outside the mask, summed over time and divided by that sequence's length,
listed in the order given by the `order` permutation. -/
theorem compute_metrics_mse_spec (bt : Batch) (order : List ℕ) :
    compute_metrics_mse bt order = order.map (fun b => spec_seq_mse bt b) := by
  unfold compute_metrics_mse
  apply List.map_congr_left
  intro b _
  unfold time_avg_mse spec_seq_mse
  congr 1
  apply congrArg List.sum
  apply List.map_congr_left
  intro t _
  unfold masked_mse mse_tb sq_err
  by_cases hm : bt.mask t b
  · rw [if_pos hm, if_pos hm]
    exact list_sum_swap (List.range bt.D) bt.mods
      (fun d m => ((bt.recon m).1 t b d - bt.targets m t b d) ^ 2)
  · rw [if_neg hm, if_neg hm]

/-- C2: with at least 8 sequences, `visualize` selects exactly 8 indices:
first the indices of the 4 smallest metric values in ascending metric order,
then the indices of the 4 largest metric values in descending metric order,
and the sequences are plotted in that order. -/
theorem sel_idx_top_bottom (metric : List ℚ) (h8 : 8 ≤ metric.length) :
    (sel_idx metric).length = 8 ∧
    ((sel_idx metric).take 4).map (fun i => metric.getD i 0) =
      (sortQ metric).take 4 ∧
    ((sel_idx metric).drop 4).map (fun i => metric.getD i 0) =
      ((sortQ metric).drop (metric.length - 4)).reverse := by
  have hA : (argsort metric).length = metric.length := length_argsort metric
  have htake4 : ((argsort metric).take 4).length = 4 := by
    rw [List.length_take]
    omega
  have hsel_take : (sel_idx metric).take 4 = (argsort metric).take 4 := by
    rw [sel_idx]
    exact List.take_left' htake4
  have hsel_drop : (sel_idx metric).drop 4 =
      ((argsort metric).drop ((argsort metric).length - 4)).reverse := by
    rw [sel_idx]
    exact List.drop_left' htake4
  refine ⟨?_, ?_, ?_⟩
  · rw [sel_idx, List.length_append, List.length_take, List.length_reverse,
      List.length_drop]
    omega
  · rw [hsel_take, List.map_take, map_getD_argsort]
  · rw [hsel_drop, List.map_reverse, List.map_drop, map_getD_argsort, hA]

/-- Witness for C2 on an 8-element metric list. -/
theorem sel_idx_top_bottom_witness :
    (sel_idx [3, 1, 4, 1, 5, 9, 2, 6]).length = 8 ∧
    ((sel_idx [3, 1, 4, 1, 5, 9, 2, 6]).take 4).map
        (fun i => ([3, 1, 4, 1, 5, 9, 2, 6] : List ℚ).getD i 0) =
      (sortQ [3, 1, 4, 1, 5, 9, 2, 6]).take 4 ∧
    ((sel_idx [3, 1, 4, 1, 5, 9, 2, 6]).drop 4).map
        (fun i => ([3, 1, 4, 1, 5, 9, 2, 6] : List ℚ).getD i 0) =
      ((sortQ [3, 1, 4, 1, 5, 9, 2, 6]).drop
        (([3, 1, 4, 1, 5, 9, 2, 6] : List ℚ).length - 4)).reverse :=
  sel_idx_top_bottom [3, 1, 4, 1, 5, 9, 2, 6] (by decide)

/-- C10: with at least 4 but fewer than 8 sequences, the selection of
`visualize` still has length 8 and some sequence index appears both in the
bottom-4 group and in the top-4 group, so that sequence is plotted twice. -/
theorem sel_idx_short_metric_duplicates (metric : List ℚ)
    (h4 : 4 ≤ metric.length) (h8 : metric.length < 8) :
    (sel_idx metric).length = 8 ∧
    (∃ i, i ∈ (sel_idx metric).take 4 ∧ i ∈ (sel_idx metric).drop 4) ∧
    ¬ (sel_idx metric).Nodup := by
  have hA : (argsort metric).length = metric.length := length_argsort metric
  have htake4 : ((argsort metric).take 4).length = 4 := by
    rw [List.length_take]
    omega
  have hsel_take : (sel_idx metric).take 4 = (argsort metric).take 4 := by
    rw [sel_idx]
    exact List.take_left' htake4
  have hsel_drop : (sel_idx metric).drop 4 =
      ((argsort metric).drop ((argsort metric).length - 4)).reverse := by
    rw [sel_idx]
    exact List.drop_left' htake4
  have hlen : (sel_idx metric).length = 8 := by
    rw [sel_idx, List.length_append, List.length_take, List.length_reverse,
      List.length_drop]
    omega
  have hptake : (argsort metric).length - 4 <
      ((argsort metric).take 4).length := by
    rw [htake4]
    omega
  have hpdrop : 0 <
      ((argsort metric).drop ((argsort metric).length - 4)).length := by
    rw [List.length_drop]
    omega
  have hx_take : ((argsort metric).take 4).get ⟨_, hptake⟩ ∈
      (sel_idx metric).take 4 := by
    rw [hsel_take]
    exact List.get_mem _ _ _
  have hx_drop : ((argsort metric).take 4).get ⟨_, hptake⟩ ∈
      (sel_idx metric).drop 4 := by
    rw [hsel_drop, List.mem_reverse]
    have h1 : ((argsort metric).take 4).get ⟨_, hptake⟩ =
        (argsort metric).get ⟨(argsort metric).length - 4, by omega⟩ := by
      simp [List.get_eq_getElem, List.getElem_take]
    have h2 : ((argsort metric).drop
          ((argsort metric).length - 4)).get ⟨0, hpdrop⟩ =
        (argsort metric).get ⟨(argsort metric).length - 4, by omega⟩ := by
      simp [List.get_eq_getElem, List.getElem_drop]
    rw [h1, ← h2]
    exact List.get_mem _ _ _
  refine ⟨hlen, ⟨_, hx_take, hx_drop⟩, ?_⟩
  intro hnd
  rw [← List.take_append_drop 4 (sel_idx metric)] at hnd
  rcases List.nodup_append.mp hnd with ⟨_, _, hdisj⟩
  exact hdisj hx_take hx_drop

/-- Witness for C10 on a 5-element metric list. -/
theorem sel_idx_short_metric_duplicates_witness :
    (4 ≤ ([3, 1, 4, 1, 5] : List ℚ).length ∧
     ([3, 1, 4, 1, 5] : List ℚ).length < 8) ∧
    ((sel_idx [3, 1, 4, 1, 5]).length = 8 ∧
     (∃ i, i ∈ (sel_idx [3, 1, 4, 1, 5]).take 4 ∧
        i ∈ (sel_idx [3, 1, 4, 1, 5]).drop 4) ∧
     ¬ (sel_idx [3, 1, 4, 1, 5]).Nodup) :=
  ⟨⟨by decide, by decide⟩,
   sel_idx_short_metric_duplicates [3, 1, 4, 1, 5] (by decide) (by decide)⟩

/-- C5: every ellipse drawn by `plot_spiral` is centred at the predicted
`(x, y)` mean for its time-step, with width `1.96` times the predicted x
standard deviation and height `1.96` times the predicted y standard
deviation. -/
theorem plot_spiral_ellipses_spec (pred rng : List ℚ × List ℚ) (i : ℕ)
    (h : i < (plot_spiral_ellipses pred rng).length) :
    ((plot_spiral_ellipses pred rng).getD i ⟨0, 0, 0, 0⟩).width
        = (196 / 100 : ℚ) * rng.1.getD i 0 ∧
    ((plot_spiral_ellipses pred rng).getD i ⟨0, 0, 0, 0⟩).height
        = (196 / 100 : ℚ) * rng.2.getD i 0 ∧
    ((plot_spiral_ellipses pred rng).getD i ⟨0, 0, 0, 0⟩).cx
        = pred.1.getD i 0 ∧
    ((plot_spiral_ellipses pred rng).getD i ⟨0, 0, 0, 0⟩).cy
        = pred.2.getD i 0 := by
  have hlen := h
  simp only [plot_spiral_ellipses, List.length_map, List.length_zip,
    lt_min_iff] at hlen
  obtain ⟨h1, h2, h3, h4⟩ := hlen
  rw [List.getD_eq_getElem _ _ h]
  simp only [plot_spiral_ellipses, List.getElem_map, List.getElem_zip]
  rw [List.getD_eq_getElem _ _ h1, List.getD_eq_getElem _ _ h2,
    List.getD_eq_getElem _ _ h3, List.getD_eq_getElem _ _ h4]
  exact ⟨rfl, rfl, rfl, rfl⟩

/-- Witness for C5: the single ellipse of a one-point prediction. -/
theorem plot_spiral_ellipses_spec_witness :
    0 < (plot_spiral_ellipses ([1], [2]) ([3], [4])).length ∧
    (((plot_spiral_ellipses ([1], [2]) ([3], [4])).getD 0 ⟨0, 0, 0, 0⟩).width
        = (196 / 100 : ℚ) * ([3] : List ℚ).getD 0 0 ∧
     ((plot_spiral_ellipses ([1], [2]) ([3], [4])).getD 0 ⟨0, 0, 0, 0⟩).height
        = (196 / 100 : ℚ) * ([4] : List ℚ).getD 0 0 ∧
     ((plot_spiral_ellipses ([1], [2]) ([3], [4])).getD 0 ⟨0, 0, 0, 0⟩).cx
        = ([1] : List ℚ).getD 0 0 ∧
     ((plot_spiral_ellipses ([1], [2]) ([3], [4])).getD 0 ⟨0, 0, 0, 0⟩).cy
        = ([2] : List ℚ).getD 0 0) :=
  ⟨by decide, plot_spiral_ellipses_spec ([1], [2]) ([3], [4]) 0 (by decide)⟩

/-- C6: `load_data` applies normalization exactly when `args.normalize` is
non-empty; in that case the test dataset is normalized first, using the still
unnormalized training dataset as reference, and the training dataset is then
normalized in place; with empty `args.normalize` both datasets stay
unnormalized. -/
theorem load_data_normalization (tr te : String) (normalize : List String) :
    (normalize = [] →
       load_data tr te normalize = (DState.base tr, DState.base te)) ∧
    (normalize ≠ [] →
       load_data tr te normalize =
         (DState.normalized normalize (DState.base tr) (DState.base tr),
          DState.normalized normalize (DState.base tr) (DState.base te))) := by
  constructor
  · intro h
    simp [load_data, h]
  · intro h
    have hlen : 0 < normalize.length := List.length_pos.mpr h
    simp [load_data, hlen, normalizeDS]

/-- Witness for C6, in both the normalizing and non-normalizing cases. -/
theorem load_data_normalization_witness :
    load_data "train" "test" ["spiral-x"] =
      (DState.normalized ["spiral-x"] (DState.base "train")
        (DState.base "train"),
       DState.normalized ["spiral-x"] (DState.base "train")
        (DState.base "test")) ∧
    load_data "train" "test" [] = (DState.base "train", DState.base "test") :=
  ⟨(load_data_normalization "train" "test" ["spiral-x"]).2 (by decide),
   (load_data_normalization "train" "test" []).1 rfl⟩

end Spirals

namespace TestSpacy

/-- C7: `test_spacy.py` prints one similarity line for every ordered pair of
tokens of the parsed text (each token paired with every token, itself
included): `n * n` lines in total, and the line at position `i*n + j` is
`tokens[i].text tokens[j].text tokens[i].similarity(tokens[j])`. -/
theorem printedLines_all_ordered_pairs (tokens : List Token)
    (sim : Token → Token → ℚ) :
    (printedLines tokens sim).length = tokens.length * tokens.length ∧
    (∀ p, p ∈ printedLines tokens sim ↔
      ∃ t1 ∈ tokens, ∃ t2 ∈ tokens, p = (t1.text, t2.text, sim t1 t2)) ∧
    (∀ i j, i < tokens.length → j < tokens.length →
      (printedLines tokens sim).getD (i * tokens.length + j) ("", "", 0) =
        ((tokens.getD i ⟨""⟩).text, (tokens.getD j ⟨""⟩).text,
          sim (tokens.getD i ⟨""⟩) (tokens.getD j ⟨""⟩))) := by
  refine ⟨?_, ?_, ?_⟩
  · exact flatMap_const_length tokens _ tokens.length
      (fun a => List.length_map tokens _)
  · intro p
    simp only [printedLines, List.mem_flatMap, List.mem_map]
    constructor
    · rintro ⟨t1, h1, t2, h2, rfl⟩
      exact ⟨t1, h1, t2, h2, rfl⟩
    · rintro ⟨t1, h1, t2, h2, rfl⟩
      exact ⟨t1, h1, t2, h2, rfl⟩
  · intro i j hi hj
    rw [printedLines,
      flatMap_const_getD tokens _ tokens.length
        (fun a => List.length_map tokens _) i j hi hj ("", "", 0) ⟨""⟩]
    have hj' : j < (tokens.map (fun t2 =>
        ((tokens.getD i ⟨""⟩).text, t2.text,
          sim (tokens.getD i ⟨""⟩) t2))).length := by
      simpa using hj
    rw [List.getD_eq_getElem _ _ hj', List.getElem_map,
      List.getD_eq_getElem _ _ hj]

/-- Witness for C7: on a two-token text, line `1*2 + 0` pairs the second token
with the first. -/
theorem printedLines_all_ordered_pairs_witness :
    (printedLines [Token.mk "dog", Token.mk "cat"]
        (fun t1 t2 => if t1 = t2 then 1 else 0)).getD
        (1 * ([Token.mk "dog", Token.mk "cat"] : List Token).length + 0)
        ("", "", 0) =
      ((([Token.mk "dog", Token.mk "cat"] : List Token).getD 1 ⟨""⟩).text,
       (([Token.mk "dog", Token.mk "cat"] : List Token).getD 0 ⟨""⟩).text,
       (fun t1 t2 => if t1 = t2 then (1 : ℚ) else 0)
         (([Token.mk "dog", Token.mk "cat"] : List Token).getD 1 ⟨""⟩)
         (([Token.mk "dog", Token.mk "cat"] : List Token).getD 0 ⟨""⟩)) :=
  (printedLines_all_ordered_pairs [Token.mk "dog", Token.mk "cat"]
    (fun t1 t2 => if t1 = t2 then 1 else 0)).2.2 1 0 (by decide) (by decide)

end TestSpacy
